import Mathlib

/-!
Shallow embedding of the express-mvc user CRUD stack:
the in-memory `UserRepository`, the `UserService` wrapper and the
`UserController` HTTP handlers, plus the `HelloService` greeting table.

Conventions of the embedding:
* the repository's backing array is an explicit `List User` threaded
  through every operation;
* wall-clock reads (`Date.now()`, `new Date()`) are an explicit `now : Nat`
  argument (epoch milliseconds);
* JavaScript `undefined`-able values are `Option`; JS truthiness on strings
  (`!name`) is `jsFalsy` (missing or empty);
* thrown errors are `Except.error` carrying the thrown message;
* logging is pure observation and is dropped.
-/

/-- JS truthiness test for an optional string: `!x` is true when the value
is `undefined` or the empty string. -/
def jsFalsy : Option String → Bool
  | none => true
  | some s => s.isEmpty

/-- ASCII lowercase mapping of a single character (the fragment of JS
`toLowerCase` exercised by this repository's data). -/
def lowerChar (c : Char) : Char :=
  if 65 ≤ c.toNat ∧ c.toNat ≤ 90 then Char.ofNat (c.toNat + 32) else c

/-- JS `s.toLowerCase()` on ASCII letters. -/
def jsToLower (s : String) : String :=
  String.mk (s.data.map lowerChar)

/-- Does `hay` start with `needle`? (character-list version of JS
`String.prototype.startsWith`). -/
def startsWithChars : List Char → List Char → Bool
  | _, [] => true
  | [], _ :: _ => false
  | a :: as, b :: bs => a == b && startsWithChars as bs

/-- Does `hay` contain `needle` as a contiguous substring?
(character-list version of JS `String.prototype.includes`). -/
def hasSub : List Char → List Char → Bool
  | [], needle => needle.isEmpty
  | a :: as, needle => startsWithChars (a :: as) needle || hasSub as needle

/-- JS `s.includes(q)`: substring containment on the underlying
character lists. -/
def stringIncludes (s q : String) : Bool := hasSub s.data q.data

/-- Replace the first occurrence of `pat` in the scanned list by `r`;
`none` when `pat` does not occur. -/
def replaceFirstAux (r : List Char) : List Char → List Char → Option (List Char)
  | [], pat => if pat.isEmpty then some r else none
  | c :: cs, pat =>
    if startsWithChars (c :: cs) pat then some (r ++ (c :: cs).drop pat.length)
    else (replaceFirstAux r cs pat).map (fun l => c :: l)

/-- JS `s.replace(pat, r)` with a string pattern: replaces only the first
occurrence, returns `s` unchanged when `pat` does not occur. -/
def replaceFirst (s pat r : String) : String :=
  match replaceFirstAux r.data s.data pat.data with
  | some l => String.mk l
  | none => s

/-- Model of JS `parseInt(str)` (base 10): skip leading whitespace, optional
sign, then the longest leading run of decimal digits; `none` models `NaN`
(no digits found). -/
def digitsToNat (ds : List Char) : Nat :=
  ds.foldl (fun a c => a * 10 + (c.toNat - 48)) 0

/-- The unsigned-digits part of `parseInt`. -/
def parseNatPart (cs : List Char) : Option Nat :=
  let ds := cs.takeWhile Char.isDigit
  if ds.isEmpty then none else some (digitsToNat ds)

/-- `parseInt` on a full JS string. -/
def jsParseInt (str : String) : Option Int :=
  match str.data.dropWhile Char.isWhitespace with
  | '-' :: rest => (parseNatPart rest).map (fun n => -(n : Int))
  | '+' :: rest => (parseNatPart rest).map (fun n => (n : Int))
  | cs => (parseNatPart cs).map (fun n => (n : Int))

/-- The `User` entity of `src/types/User`: `id` is a JS number (modelled
as `Int`), the timestamps are epoch milliseconds. -/
structure User where
  id : Int
  name : String
  email : String
  createdAt : Nat
  updatedAt : Nat
deriving DecidableEq, Repr

namespace UserRepository

/-- The two seed users of the in-memory `UserRepository`
(`new Date('2025-01-01')` / `'2025-01-02'` as epoch milliseconds). -/
def initialUsers : List User :=
  [ ⟨1, "John Doe", "john@example.com", 1735689600000, 1735689600000⟩,
    ⟨2, "Jane Smith", "jane@example.com", 1735776000000, 1735776000000⟩ ]

/-- `findAll()`: the backing array itself. -/
def findAll (s : List User) : List User := s

/-- `findById(id)`: first user with the given id (`Array.prototype.find`). -/
def findById (i : Int) (s : List User) : Option User :=
  s.find? (fun u => u.id == i)

/-- `findByEmail(email)`: first user whose email matches case-insensitively. -/
def findByEmail (e : String) (s : List User) : Option User :=
  s.find? (fun u => jsToLower u.email == jsToLower e)

/-- The predicate of `search`: name or email contains the lowercased query,
case-insensitively. -/
def matchesQuery (q : String) (u : User) : Bool :=
  stringIncludes (jsToLower u.name) (jsToLower q) || stringIncludes (jsToLower u.email) (jsToLower q)

/-- `search(query)`: filter by `matchesQuery`. -/
def search (q : String) (s : List User) : List User :=
  s.filter (matchesQuery q)

/-- `create(data)`: throws when `name` or `email` is missing/empty, else
appends a user with `id = Date.now()` and both timestamps `now`. -/
def create (name? email? : Option String) (now : Nat) (s : List User) :
    Except String (User × List User) :=
  if jsFalsy name? || jsFalsy email? then Except.error "Name and email are required"
  else
    let u : User := ⟨(now : Int), name?.getD "", email?.getD "", now, now⟩
    Except.ok (u, s ++ [u])

/-- The merged record `update` builds: given fields override, `createdAt`
kept, `updatedAt` refreshed to `now`. -/
def mergeUpdate (u : User) (name? email? : Option String) (now : Nat) : User :=
  ⟨u.id, name?.getD u.name, email?.getD u.email, u.createdAt, now⟩

/-- `update(id, data)`: `undefined` when the id is unknown, else replaces
the record at its index by the merge. -/
def update (i : Int) (name? email? : Option String) (now : Nat) (s : List User) :
    Option (User × List User) :=
  match s.findIdx? (fun u => u.id == i) with
  | none => none
  | some k =>
    match s.get? k with
    | none => none
    | some u => some (mergeUpdate u name? email? now, s.set k (mergeUpdate u name? email? now))

/-- `delete(id)`: `false` and the store untouched when the id is unknown,
else `true` and the record spliced out. -/
def delete (i : Int) (s : List User) : Bool × List User :=
  match s.findIdx? (fun u => u.id == i) with
  | none => (false, s)
  | some k => (true, s.eraseIdx k)

/-- `exists(id)`. -/
def existsId (i : Int) (s : List User) : Bool := (findById i s).isSome

/-- `count()`. -/
def count (s : List User) : Nat := s.length

end UserRepository

namespace UserService

/-- `getAllUsers()`: pass-through. -/
def getAllUsers (s : List User) : List User := UserRepository.findAll s

/-- `getUserById(id)`: pass-through. -/
def getUserById (i : Int) (s : List User) : Option User := UserRepository.findById i s

/-- `createUser(dto)`: rejects when `findByEmail` hits, else delegates to
the repository's `create`. The result triple is (thrown-or-returned value,
resulting store, number of `repository.create` invocations). -/
def createUser (n e : String) (now : Nat) (s : List User) :
    Except String User × List User × Nat :=
  match UserRepository.findByEmail e s with
  | some _ => (Except.error "User with this email already exists", s, 0)
  | none =>
    match UserRepository.create (some n) (some e) now s with
    | Except.ok (u, s') => (Except.ok u, s', 1)
    | Except.error m => (Except.error m, s, 1)

/-- `updateUser(id, dto)`: pass-through. -/
def updateUser (i : Int) (name? email? : Option String) (now : Nat) (s : List User) :
    Option (User × List User) :=
  UserRepository.update i name? email? now s

/-- `deleteUser(id)`: pass-through. -/
def deleteUser (i : Int) (s : List User) : Bool × List User :=
  UserRepository.delete i s

/-- `getUserByEmail(email)`: pass-through. -/
def getUserByEmail (e : String) (s : List User) : Option User :=
  UserRepository.findByEmail e s

/-- `searchUsers(query)`: pass-through. -/
def searchUsers (q : String) (s : List User) : List User :=
  UserRepository.search q s

end UserService

/-- An un-awaited JS Promise as the controller sees it: an object holding
the eventual resolution. The handler never awaits it, so only the object
itself (not `val`) is observable to the handler's branches. -/
structure JsPromise (α : Type) where
  val : α
deriving DecidableEq, Repr

/-- JS truthiness of a Promise object: any object is truthy. -/
def jsTruthyPromise {α : Type} (_p : JsPromise α) : Bool := true

/-- What lands in the envelope's `data` field: nothing, or an un-awaited
Promise object, which `res.json` serializes as the empty object. -/
inductive RespData where
  | absent
  | promiseObj
deriving DecidableEq, Repr

/-- The observable outcome of one controller handler call: HTTP status,
envelope `success` flag, envelope `data`, the store after the call (the
async service bodies run their repository calls synchronously before
suspending, so mutations land even without `await`), and how many service
methods were invoked. -/
structure CtrlResult where
  status : Nat
  success : Bool
  data : RespData
  store : List User
  serviceCalls : Nat
deriving DecidableEq, Repr

namespace UserController

/-- `GET /users/:id`: 400 on missing/empty id, 400 on `parseInt` NaN; the
service call is not awaited, so `user` is a Promise, `!user` is always
false, the 404 branch is dead and the 200 envelope's `data` is the
serialized Promise. -/
def getUserById (idParam : Option String) (s : List User) : CtrlResult :=
  if jsFalsy idParam then ⟨400, false, RespData.absent, s, 0⟩
  else
    match jsParseInt (idParam.getD "") with
    | none => ⟨400, false, RespData.absent, s, 0⟩
    | some i =>
      let user : JsPromise (Option User) := ⟨UserService.getUserById i s⟩
      if !jsTruthyPromise user then ⟨404, false, RespData.absent, s, 1⟩
      else ⟨200, true, RespData.promiseObj, s, 1⟩

/-- `POST /users`: 400 when `name` or `email` is falsy (service untouched);
`existingUser` is an un-awaited Promise, so `if (existingUser)` always
takes the 409 branch and the create path below it is dead. -/
def createUser (name? email? : Option String) (now : Nat) (s : List User) : CtrlResult :=
  if jsFalsy name? || jsFalsy email? then ⟨400, false, RespData.absent, s, 0⟩
  else
    let existingUser : JsPromise (Option User) :=
      ⟨UserService.getUserByEmail (email?.getD "") s⟩
    if jsTruthyPromise existingUser then ⟨409, false, RespData.absent, s, 1⟩
    else
      ⟨201, true, RespData.promiseObj,
        (UserService.createUser (name?.getD "") (email?.getD "") now s).2.1, 2⟩

/-- `PUT /users/:id`: 400 on missing/empty/NaN id; the un-awaited update
Promise is truthy, so the 404 branch is dead and every parsable id gets a
200 whose `data` is the serialized Promise. The repository mutation still
happens (it runs before the service's first suspension). -/
def updateUser (idParam name? email? : Option String) (now : Nat) (s : List User) :
    CtrlResult :=
  if jsFalsy idParam then ⟨400, false, RespData.absent, s, 0⟩
  else
    match jsParseInt (idParam.getD "") with
    | none => ⟨400, false, RespData.absent, s, 0⟩
    | some i =>
      let res := UserService.updateUser i name? email? now s
      let s' := match res with | some (_, t) => t | none => s
      let updatedUser : JsPromise (Option (User × List User)) := ⟨res⟩
      if !jsTruthyPromise updatedUser then ⟨404, false, RespData.absent, s', 1⟩
      else ⟨200, true, RespData.promiseObj, s', 1⟩

/-- `DELETE /users/:id`: 400 on missing/empty/NaN id; the un-awaited delete
Promise is truthy, so the handler answers 200 whether or not a record was
removed (the splice itself still happens). -/
def deleteUser (idParam : Option String) (s : List User) : CtrlResult :=
  if jsFalsy idParam then ⟨400, false, RespData.absent, s, 0⟩
  else
    match jsParseInt (idParam.getD "") with
    | none => ⟨400, false, RespData.absent, s, 0⟩
    | some i =>
      let r := UserService.deleteUser i s
      let deleted : JsPromise Bool := ⟨r.1⟩
      if !jsTruthyPromise deleted then ⟨404, false, RespData.absent, r.2, 1⟩
      else ⟨200, true, RespData.absent, r.2, 1⟩

end UserController

/-- The greeting payload of `HelloService` (timestamp as epoch millis). -/
structure HelloMessage where
  message : String
  timestamp : Nat
  language : Option String
deriving DecidableEq, Repr

namespace HelloService

/-- The fixed language-to-greeting table (`messages`). -/
def helloMessages : List (String × String) :=
  [ ("en", "Hello World!"), ("es", "¡Hola Mundo!"), ("fr", "Bonjour le monde!"),
    ("de", "Hallo Welt!"), ("it", "Ciao Mondo!"), ("pt", "Olá Mundo!"),
    ("ja", "こんにちは世界！"), ("ko", "안녕하세요 세계!"), ("zh", "你好世界！") ]

/-- `this.messages[lang]` as an optional lookup. -/
def lookupMessage (l : String) : Option String :=
  helloMessages.lookup l

/-- JS `a || b` on possibly-undefined strings: the empty string is falsy. -/
def jsOrStr (a b : Option String) : Option String :=
  match a with
  | some st => if st.isEmpty then b else some st
  | none => b

/-- The greeting string selected for a language:
`messages[normalized] || messages['en']`. -/
def baseMessage (language : String) : String :=
  (jsOrStr (lookupMessage (jsToLower language)) (lookupMessage "en")).getD ""

/-- `getHelloMessage(language)`. -/
def getHelloMessage (language : String) (now : Nat) : HelloMessage :=
  ⟨baseMessage language, now, some (jsToLower language)⟩

/-- `getPersonalizedHello(name, language)`: four chained first-occurrence
replacements on the base greeting. -/
def getPersonalizedHello (name language : String) (now : Nat) : HelloMessage :=
  ⟨replaceFirst (replaceFirst (replaceFirst
      (replaceFirst (baseMessage language) "World" name) "Mundo" name) "monde" name)
      "Welt" name,
   now, some (jsToLower language)⟩

end HelloService

/-! ## Helper lemmas -/

/-- A nonempty Lean string is not JS-falsy when present. -/
lemma jsFalsy_some_eq_false {s : String} (h : s ≠ "") : jsFalsy (some s) = false := by
  simp only [jsFalsy]
  exact Bool.eq_false_iff.mpr (fun hb => h ((String.isEmpty_iff s).mp hb))

/-- `parseInt` never succeeds on the empty string. -/
lemma jsParseInt_empty : jsParseInt "" = none := rfl

/-- A string on which `parseInt` succeeds is nonempty. -/
lemma ne_empty_of_jsParseInt {str : String} {i : Int} (h : jsParseInt str = some i) :
    str.isEmpty = false := by
  cases he : str.isEmpty
  · rfl
  · rw [String.isEmpty_iff] at he
    subst he
    simp [jsParseInt_empty] at h

/-- `findById` misses exactly when no stored user carries the id. -/
lemma findById_eq_none_iff {i : Int} {s : List User} :
    UserRepository.findById i s = none ↔ ∀ u ∈ s, u.id ≠ i := by
  simp [UserRepository.findById, List.find?_eq_none]

/-- `findByEmail` misses exactly when no stored user carries the email
up to ASCII case. -/
lemma findByEmail_eq_none_iff {e : String} {s : List User} :
    UserRepository.findByEmail e s = none ↔ ∀ u ∈ s, jsToLower u.email ≠ jsToLower e := by
  simp [UserRepository.findByEmail, List.find?_eq_none]

example : UserRepository.findById 1 UserRepository.initialUsers =
    some ⟨1, "John Doe", "john@example.com", 1735689600000, 1735689600000⟩ := by decide
example : jsParseInt "12abc" = some 12 := by decide
example : jsParseInt "abc" = none := by decide
example : jsParseInt "" = none := by decide
example : jsParseInt "-42" = some (-42) := by decide
example : stringIncludes "john doe" "ohn" = true := by decide
example : (HelloService.getPersonalizedHello "Alice" "en" 5).message = "Hello Alice!" := by decide
example : (HelloService.getPersonalizedHello "Bob" "it" 5).message = "Ciao Mondo!" := by decide

/-! ## Claim theorems -/

/-- C8: for every query string and store state, `UserRepository.search`
returns exactly the stored users whose name or email contains the query as
a case-insensitive substring. -/
theorem repo_search_exact (q : String) (s : List User) (u : User) :
    u ∈ UserRepository.search q s ↔
      u ∈ s ∧ (stringIncludes (jsToLower u.name) (jsToLower q)
        || stringIncludes (jsToLower u.email) (jsToLower q)) = true := by
  simp [UserRepository.search, UserRepository.matchesQuery, List.mem_filter]

/-- C5: with `name` and `email` present, the email fresh and the
clock-derived id unused, `create` followed by `findById` on the returned id
yields a user with the input's name/email and `createdAt = updatedAt`. -/
theorem repo_create_findById_roundtrip (n e : String) (now : Nat) (s : List User)
    (hn : n ≠ "") (he : e ≠ "")
    (hid : ∀ u ∈ s, u.id ≠ (now : Int))
    (_hfresh : UserRepository.findByEmail e s = none) :
    ∃ u s',
      UserRepository.create (some n) (some e) now s = Except.ok (u, s') ∧
      UserRepository.findById u.id s' = some u ∧
      u.name = n ∧ u.email = e ∧ u.createdAt = u.updatedAt := by
  refine ⟨⟨(now : Int), n, e, now, now⟩, s ++ [⟨(now : Int), n, e, now, now⟩], ?_, ?_, rfl, rfl, rfl⟩
  · simp [UserRepository.create, jsFalsy_some_eq_false hn, jsFalsy_some_eq_false he]
  · have hnone : UserRepository.findById (now : Int) s = none :=
      findById_eq_none_iff.mpr hid
    simp only [UserRepository.findById] at hnone ⊢
    rw [List.find?_append, hnone]
    simp

/-- Witness for C5 at a concrete input. -/
theorem repo_create_findById_roundtrip_witness :
    ∃ u s',
      UserRepository.create (some "Carol") (some "carol@example.com") 1736000000000
        UserRepository.initialUsers = Except.ok (u, s') ∧
      UserRepository.findById u.id s' = some u ∧
      u.name = "Carol" ∧ u.email = "carol@example.com" ∧ u.createdAt = u.updatedAt :=
  repo_create_findById_roundtrip "Carol" "carol@example.com" 1736000000000
    UserRepository.initialUsers (by decide) (by decide) (by decide)
    (by decide)

/-- C2 (code bug): the handler calls the async `getUserById` without
`await`, so `user` is a truthy Promise, the 404 branch is unreachable, and
a miss (id 999999 is not stored) is answered 200 with `success: true` and
the serialized Promise — not the stored User — as `data`. -/
theorem getUserById_miss_answers_200 :
    UserRepository.findById 999999 UserRepository.initialUsers = none ∧
    UserController.getUserById (some "999999") UserRepository.initialUsers =
      ⟨200, true, RespData.promiseObj, UserRepository.initialUsers, 1⟩ := by
  exact ⟨by decide, by decide⟩

/-- The spec's reading of a numeric id: an optional sign followed by
decimal digits only (used to state C9 as written). -/
def specNumeral (str : String) : Bool :=
  match str.data with
  | [] => false
  | '-' :: rest => !rest.isEmpty && rest.all Char.isDigit
  | '+' :: rest => !rest.isEmpty && rest.all Char.isDigit
  | cs => cs.all Char.isDigit

/-- C9 counterexample: `"12abc"` is not a numeral, yet the GET handler does
not answer 400 — `parseInt` coerces it to `12`, the service is invoked, and
the un-awaited (truthy) Promise makes the handler answer 200. -/
theorem invalid_id_numeral_cex :
    specNumeral "12abc" = false ∧
    UserController.getUserById (some "12abc") UserRepository.initialUsers =
      ⟨200, true, RespData.promiseObj, UserRepository.initialUsers, 1⟩ := by
  exact ⟨by decide, by decide⟩

/-- C9 amended: the GET/PUT/DELETE `:id` handlers answer 400 without
invoking the service exactly on the ids `parseInt` cannot coerce at all —
missing, empty, or with no leading integer; any id with a parsable leading
integer is coerced and passed to the service instead. -/
theorem invalid_id_badrequest (idParam name? email? : Option String)
    (now : Nat) (s : List User)
    (h : ∀ str, idParam = some str → jsParseInt str = none) :
    UserController.getUserById idParam s = ⟨400, false, RespData.absent, s, 0⟩ ∧
    UserController.updateUser idParam name? email? now s =
      ⟨400, false, RespData.absent, s, 0⟩ ∧
    UserController.deleteUser idParam s = ⟨400, false, RespData.absent, s, 0⟩ := by
  cases idParam with
  | none =>
    simp [UserController.getUserById, UserController.updateUser,
      UserController.deleteUser, jsFalsy]
  | some str =>
    have hp : jsParseInt str = none := h str rfl
    cases he : str.isEmpty with
    | true =>
      simp [UserController.getUserById, UserController.updateUser,
        UserController.deleteUser, jsFalsy, he]
    | false =>
      simp [UserController.getUserById, UserController.updateUser,
        UserController.deleteUser, jsFalsy, he, hp]

/-- Witness for C9 (amended) at a concrete non-numeric id. -/
theorem invalid_id_badrequest_witness :
    UserController.getUserById (some "abc") UserRepository.initialUsers =
      ⟨400, false, RespData.absent, UserRepository.initialUsers, 0⟩ ∧
    UserController.updateUser (some "abc") (some "X") none 0 UserRepository.initialUsers =
      ⟨400, false, RespData.absent, UserRepository.initialUsers, 0⟩ ∧
    UserController.deleteUser (some "abc") UserRepository.initialUsers =
      ⟨400, false, RespData.absent, UserRepository.initialUsers, 0⟩ :=
  invalid_id_badrequest (some "abc") (some "X") none 0 UserRepository.initialUsers
    (fun str hstr => by cases hstr; decide)

/-- C1 (code bug): the handler calls the async `getUserByEmail` without
`await`, so `existingUser` is a truthy Promise and every well-formed POST —
fresh email included — is answered 409; `createUser` is never reached (one
service call, store unchanged) and the spec's 201 path is dead code. -/
theorem createUser_fresh_email_answers_409 :
    UserRepository.findByEmail "carol@example.com" UserRepository.initialUsers = none ∧
    UserController.createUser (some "Carol") (some "carol@example.com") 1736000000000
      UserRepository.initialUsers =
      ⟨409, false, RespData.absent, UserRepository.initialUsers, 1⟩ := by
  exact ⟨by decide, by decide⟩

/-! ## Update and delete characterization -/

/-- `update` on a cons whose head carries the id: the merge is written at
index 0. -/
lemma update_cons_pos (i : Int) (n? e? : Option String) (now : Nat)
    (a : User) (t : List User) (hpa : (a.id == i) = true) :
    UserRepository.update i n? e? now (a :: t) =
      some (UserRepository.mergeUpdate a n? e? now,
        UserRepository.mergeUpdate a n? e? now :: t) := by
  simp [UserRepository.update, List.findIdx?_cons, hpa]

/-- `update` on a cons whose head misses the id: the head is carried over
unchanged. -/
lemma update_cons_neg (i : Int) (n? e? : Option String) (now : Nat)
    (a : User) (t : List User) (hpa : (a.id == i) = false) :
    UserRepository.update i n? e? now (a :: t) =
      (UserRepository.update i n? e? now t).map (fun p => (p.1, a :: p.2)) := by
  simp only [UserRepository.update, List.findIdx?_cons, hpa, Bool.false_eq_true,
    if_false, List.findIdx?_succ]
  cases ht : t.findIdx? (fun u => u.id == i) with
  | none => simp
  | some k =>
    simp only [Option.map_some]
    cases hg : t[k]? with
    | none => simp [hg]
    | some v => simp [hg]

/-- First component of `delete` on a cons whose head misses the id. -/
lemma delete_cons_neg_fst (i : Int) (a : User) (t : List User)
    (hpa : (a.id == i) = false) :
    (UserRepository.delete i (a :: t)).1 = (UserRepository.delete i t).1 := by
  simp only [UserRepository.delete, List.findIdx?_cons, hpa, Bool.false_eq_true,
    if_false, List.findIdx?_succ]
  cases ht : t.findIdx? (fun u => u.id == i) with
  | none => simp
  | some k => simp

/-- Second component of `delete` on a cons whose head misses the id. -/
lemma delete_cons_neg_snd (i : Int) (a : User) (t : List User)
    (hpa : (a.id == i) = false) :
    (UserRepository.delete i (a :: t)).2 = a :: (UserRepository.delete i t).2 := by
  simp only [UserRepository.delete, List.findIdx?_cons, hpa, Bool.false_eq_true,
    if_false, List.findIdx?_succ]
  cases ht : t.findIdx? (fun u => u.id == i) with
  | none => simp
  | some k => simp [List.eraseIdx_cons_succ]

/-- `delete` on a cons whose head carries the id removes the head. -/
lemma delete_cons_pos (i : Int) (a : User) (t : List User)
    (hpa : (a.id == i) = true) :
    UserRepository.delete i (a :: t) = (true, t) := by
  simp [UserRepository.delete, List.findIdx?_cons, hpa]

/-- When no stored user carries the id, `delete` reports `false` and leaves
the store untouched. -/
lemma delete_of_id_absent (i : Int) (s : List User) (h : ∀ u ∈ s, u.id ≠ i) :
    UserRepository.delete i s = (false, s) := by
  have hidx : s.findIdx? (fun u => u.id == i) = none := by
    rw [List.findIdx?_eq_none_iff]
    intro u hu
    simpa using h u hu
  simp [UserRepository.delete, hidx]

/-- `update` at a stored id writes the merge back at the id's index, and
`findById` then returns the merge. -/
lemma update_of_findById (i : Int) (n? e? : Option String) (now : Nat) :
    ∀ (s : List User) (u : User), UserRepository.findById i s = some u →
    ∃ s', UserRepository.update i n? e? now s =
        some (UserRepository.mergeUpdate u n? e? now, s') ∧
      UserRepository.findById i s' = some (UserRepository.mergeUpdate u n? e? now) := by
  intro s
  induction s with
  | nil => intro u hu; simp [UserRepository.findById] at hu
  | cons a t ih =>
    intro u hu
    by_cases hpa : (a.id == i) = true
    · have hua : a = u := by
        simp [UserRepository.findById, List.find?_cons, hpa] at hu
        exact hu
      subst hua
      refine ⟨UserRepository.mergeUpdate a n? e? now :: t,
        update_cons_pos i n? e? now a t hpa, ?_⟩
      have hpm : ((UserRepository.mergeUpdate a n? e? now).id == i) = true := hpa
      simp [UserRepository.findById, List.find?_cons, hpm]
    · have hpa' : (a.id == i) = false := Bool.eq_false_iff.mpr hpa
      have hu' : UserRepository.findById i t = some u := by
        simpa [UserRepository.findById, List.find?_cons, hpa'] using hu
      obtain ⟨s', h1, h2⟩ := ih u hu'
      refine ⟨a :: s', ?_, ?_⟩
      · rw [update_cons_neg i n? e? now a t hpa', h1]
        rfl
      · simpa [UserRepository.findById, List.find?_cons, hpa'] using h2

/-- C6: updating a stored user's name alone keeps the id, email and
`createdAt` of the record, both in the returned value and in the store, and
stamps `updatedAt` with the (later) update time. -/
theorem repo_update_name_frame (i : Int) (x : String) (now : Nat) (s : List User)
    (u : User) (hfound : UserRepository.findById i s = some u)
    (hclock : u.createdAt < now) :
    ∃ s',
      UserRepository.update i (some x) none now s =
        some (⟨u.id, x, u.email, u.createdAt, now⟩, s') ∧
      UserRepository.findById i s' = some ⟨u.id, x, u.email, u.createdAt, now⟩ ∧
      (⟨u.id, x, u.email, u.createdAt, now⟩ : User).createdAt <
        (⟨u.id, x, u.email, u.createdAt, now⟩ : User).updatedAt := by
  obtain ⟨s', h1, h2⟩ := update_of_findById i (some x) none now s u hfound
  exact ⟨s', h1, h2, hclock⟩

/-- Witness for C6 at a concrete stored user. -/
theorem repo_update_name_frame_witness :
    ∃ s',
      UserRepository.update 1 (some "X") none 1736000000000 UserRepository.initialUsers =
        some (⟨1, "X", "john@example.com", 1735689600000, 1736000000000⟩, s') ∧
      UserRepository.findById 1 s' =
        some ⟨1, "X", "john@example.com", 1735689600000, 1736000000000⟩ ∧
      (⟨1, "X", "john@example.com", 1735689600000, 1736000000000⟩ : User).createdAt <
        (⟨1, "X", "john@example.com", 1735689600000, 1736000000000⟩ : User).updatedAt :=
  repo_update_name_frame 1 "X" 1736000000000 UserRepository.initialUsers
    ⟨1, "John Doe", "john@example.com", 1735689600000, 1735689600000⟩
    (by decide) (by decide)

/-- C7: `delete` returns `true` exactly on stored ids; a `false` answer
leaves the store untouched, and after a successful delete (over a store
with pairwise-distinct ids) the id is gone: `findById` misses and a second
`delete` returns `false`. -/
theorem repo_delete_contract (i : Int) (s : List User)
    (hnd : (s.map User.id).Nodup) :
    ((UserRepository.delete i s).1 = true ↔ ∃ u ∈ s, u.id = i) ∧
    ((UserRepository.delete i s).1 = false → (UserRepository.delete i s).2 = s) ∧
    ((UserRepository.delete i s).1 = true →
      UserRepository.findById i (UserRepository.delete i s).2 = none ∧
      (UserRepository.delete i (UserRepository.delete i s).2).1 = false) := by
  induction s with
  | nil =>
    refine ⟨by simp [UserRepository.delete], by simp [UserRepository.delete],
      by simp [UserRepository.delete]⟩
  | cons a t ih =>
    rw [List.map_cons, List.nodup_cons] at hnd
    obtain ⟨ha, hnt⟩ := hnd
    by_cases hpa : (a.id == i) = true
    · have hai : a.id = i := by simpa using hpa
      have habsent : ∀ u ∈ t, u.id ≠ i := by
        intro u hu hui
        have hm : u.id ∈ List.map User.id t := List.mem_map_of_mem User.id hu
        rw [hui, ← hai] at hm
        exact ha hm
      rw [delete_cons_pos i a t hpa]
      refine ⟨⟨fun _ => ⟨a, List.mem_cons_self a t, hai⟩, fun _ => rfl⟩, ?_, ?_⟩
      · intro h
        exact absurd h (by simp)
      · intro _
        exact ⟨findById_eq_none_iff.mpr habsent,
          by rw [delete_of_id_absent i t habsent]⟩
    · have hpa' : (a.id == i) = false := Bool.eq_false_iff.mpr hpa
      have hai : a.id ≠ i := by simpa using hpa'
      obtain ⟨ih1, ih2, ih3⟩ := ih hnt
      refine ⟨?_, ?_, ?_⟩
      · rw [delete_cons_neg_fst i a t hpa', ih1]
        constructor
        · rintro ⟨u, hu, hui⟩
          exact ⟨u, List.mem_cons_of_mem a hu, hui⟩
        · rintro ⟨u, hu, hui⟩
          rcases List.mem_cons.mp hu with h | h
          · exact absurd (h ▸ hui) hai
          · exact ⟨u, h, hui⟩
      · intro hb
        rw [delete_cons_neg_fst i a t hpa'] at hb
        rw [delete_cons_neg_snd i a t hpa', ih2 hb]
      · intro hb
        rw [delete_cons_neg_fst i a t hpa'] at hb
        obtain ⟨hf, hd⟩ := ih3 hb
        rw [delete_cons_neg_snd i a t hpa']
        constructor
        · simpa [UserRepository.findById, List.find?_cons, hpa'] using hf
        · rw [delete_cons_neg_fst i a _ hpa']
          exact hd

/-- Witness for C7 at a concrete store. -/
theorem repo_delete_contract_witness :
    ((UserRepository.delete 1 UserRepository.initialUsers).1 = true ↔
      ∃ u ∈ UserRepository.initialUsers, u.id = 1) ∧
    ((UserRepository.delete 1 UserRepository.initialUsers).1 = false →
      (UserRepository.delete 1 UserRepository.initialUsers).2 =
        UserRepository.initialUsers) ∧
    ((UserRepository.delete 1 UserRepository.initialUsers).1 = true →
      UserRepository.findById 1 (UserRepository.delete 1 UserRepository.initialUsers).2 =
        none ∧
      (UserRepository.delete 1
        (UserRepository.delete 1 UserRepository.initialUsers).2).1 = false) :=
  repo_delete_contract 1 UserRepository.initialUsers (by decide)

/-! ## Email uniqueness across the service operations -/

/-- The case-insensitive email uniqueness property of a store. -/
def emailsUnique (s : List User) : Prop :=
  (s.map (fun u => jsToLower u.email)).Nodup

instance emailsUniqueDec (s : List User) : Decidable (emailsUnique s) := by
  unfold emailsUnique
  infer_instance

/-- States reachable from the seed store through arbitrary sequences of
`UserService.createUser`, `updateUser` and `deleteUser` calls (a miss
leaves the store unchanged, which is already covered by the source state). -/
inductive Reachable : List User → Prop where
  | init : Reachable UserRepository.initialUsers
  | createStep (n e : String) (now : Nat) (s : List User) :
      Reachable s → Reachable (UserService.createUser n e now s).2.1
  | updateStep (i : Int) (n? e? : Option String) (now : Nat) (s s' : List User)
      (u : User) : Reachable s →
      UserService.updateUser i n? e? now s = some (u, s') → Reachable s'
  | deleteStep (i : Int) (s : List User) :
      Reachable s → Reachable (UserService.deleteUser i s).2

/-- The store produced by updating user 2's email to the (differently
cased) email already held by user 1. -/
def dupEmailState : List User :=
  match UserService.updateUser 2 none (some "JOHN@EXAMPLE.COM") 1735862400000
      UserRepository.initialUsers with
  | some (_, s') => s'
  | none => []

/-- C3 counterexample: a single `updateUser` call that changes an email
reaches a store in which two users hold the same email up to case — the
uniqueness property is not an invariant of all three service operations. -/
theorem email_uniqueness_violated_by_update :
    Reachable dupEmailState ∧ ¬ emailsUnique dupEmailState := by
  constructor
  · exact Reachable.updateStep 2 none (some "JOHN@EXAMPLE.COM") 1735862400000
      UserRepository.initialUsers dupEmailState
      ⟨2, "Jane Smith", "JOHN@EXAMPLE.COM", 1735776000000, 1735862400000⟩
      Reachable.init (by decide)
  · decide

/-- States reachable when `updateUser` is never asked to change the email
field (the restriction the counterexample forces). -/
inductive ReachableNE : List User → Prop where
  | init : ReachableNE UserRepository.initialUsers
  | createStep (n e : String) (now : Nat) (s : List User) :
      ReachableNE s → ReachableNE (UserService.createUser n e now s).2.1
  | updateStep (i : Int) (n? : Option String) (now : Nat) (s s' : List User)
      (u : User) : ReachableNE s →
      UserService.updateUser i n? none now s = some (u, s') → ReachableNE s'
  | deleteStep (i : Int) (s : List User) :
      ReachableNE s → ReachableNE (UserService.deleteUser i s).2

/-- `createUser` preserves email uniqueness: its pre-check refuses any
email already stored (up to case). -/
lemma emailsUnique_createUser (n e : String) (now : Nat) (s : List User)
    (h : emailsUnique s) : emailsUnique (UserService.createUser n e now s).2.1 := by
  cases hf : UserRepository.findByEmail e s with
  | some u =>
    have hs : (UserService.createUser n e now s).2.1 = s := by
      simp [UserService.createUser, hf]
    rw [hs]; exact h
  | none =>
    by_cases hg : (jsFalsy (some n) || jsFalsy (some e)) = true
    · have hs : (UserService.createUser n e now s).2.1 = s := by
        simp [UserService.createUser, hf, UserRepository.create, hg]
      rw [hs]; exact h
    · have hg' : (jsFalsy (some n) || jsFalsy (some e)) = false :=
        Bool.eq_false_iff.mpr hg
      have hstep : (UserService.createUser n e now s).2.1 =
          s ++ [⟨(now : Int), n, e, now, now⟩] := by
        simp [UserService.createUser, hf, UserRepository.create, hg']
      unfold emailsUnique
      rw [hstep]
      simp only [List.map_append, List.map_cons, List.map_nil]
      rw [List.nodup_append]
      refine ⟨h, List.nodup_singleton _, ?_⟩
      intro x hx hx1
      rw [List.mem_singleton] at hx1
      obtain ⟨v, hv, hvx⟩ := List.mem_map.mp hx
      rw [findByEmail_eq_none_iff] at hf
      exact hf v hv (by rw [hvx, hx1])

/-- An update that does not touch the email field leaves the store's
email list unchanged. -/
lemma update_none_emails (i : Int) (n? : Option String) (now : Nat) :
    ∀ (s : List User) (u : User) (s' : List User),
      UserRepository.update i n? none now s = some (u, s') →
      s'.map (fun u => jsToLower u.email) = s.map (fun u => jsToLower u.email) := by
  intro s
  induction s with
  | nil => intro u s' h; simp [UserRepository.update] at h
  | cons a t ih =>
    intro u s' h
    by_cases hpa : (a.id == i) = true
    · rw [update_cons_pos i n? none now a t hpa] at h
      obtain ⟨-, rfl⟩ : UserRepository.mergeUpdate a n? none now = u ∧
          UserRepository.mergeUpdate a n? none now :: t = s' := by
        have := Option.some.inj h
        exact ⟨congrArg Prod.fst this, congrArg Prod.snd this⟩
      rfl
    · have hpa' : (a.id == i) = false := Bool.eq_false_iff.mpr hpa
      rw [update_cons_neg i n? none now a t hpa'] at h
      cases ht : UserRepository.update i n? none now t with
      | none => rw [ht] at h; simp at h
      | some p =>
        rw [ht] at h
        obtain ⟨-, rfl⟩ : p.1 = u ∧ a :: p.2 = s' := by
          have := Option.some.inj h
          exact ⟨congrArg Prod.fst this, congrArg Prod.snd this⟩
        have := ih p.1 p.2 (by rw [ht])
        simp [this]

/-- `delete` preserves email uniqueness: the remaining store is a sublist. -/
lemma emailsUnique_delete (i : Int) (s : List User) (h : emailsUnique s) :
    emailsUnique (UserRepository.delete i s).2 := by
  rw [UserRepository.delete]
  cases hidx : s.findIdx? (fun u => u.id == i) with
  | none => exact h
  | some k =>
    exact List.Nodup.sublist (List.Sublist.map _ (List.eraseIdx_sublist s k)) h

/-- C3 amended: case-insensitive email uniqueness is an invariant of the
store under `createUser`, `deleteUser` and email-preserving `updateUser`
calls. -/
theorem email_uniqueness_invariant (s : List User) (h : ReachableNE s) :
    emailsUnique s := by
  induction h with
  | init => decide
  | createStep n e now s hr ih => exact emailsUnique_createUser n e now s ih
  | updateStep i n? now s s' u hr hup ih =>
    have hemails := update_none_emails i n? now s u s' hup
    unfold emailsUnique
    rw [hemails]
    exact ih
  | deleteStep i s hr ih => exact emailsUnique_delete i s ih

/-- Witness for the amended C3 at the seed store. -/
theorem email_uniqueness_invariant_witness :
    emailsUnique UserRepository.initialUsers :=
  email_uniqueness_invariant UserRepository.initialUsers ReachableNE.init

/-! ## Duplicate create at the service layer -/

/-- C4: two sequential service `createUser` calls whose emails agree up to
letter case, starting from a store where the email is unused: the first
call creates a user (one repository `create`), the second fails with the
conflict error, never reaches the repository's `create`, and leaves the
store unchanged. Both call orders are instances of this statement, the
email-case hypothesis being symmetric. -/
theorem service_create_duplicate_email_conflict
    (n1 n2 e1 e2 : String) (now1 now2 : Nat) (s : List User)
    (hn1 : n1 ≠ "") (he1 : e1 ≠ "")
    (hcase : jsToLower e1 = jsToLower e2)
    (hfresh : UserRepository.findByEmail e1 s = none) :
    ∃ u,
      UserService.createUser n1 e1 now1 s = (Except.ok u, s ++ [u], 1) ∧
      UserService.createUser n2 e2 now2 (s ++ [u]) =
        (Except.error "User with this email already exists", s ++ [u], 0) := by
  refine ⟨⟨(now1 : Int), n1, e1, now1, now1⟩, ?_, ?_⟩
  · simp [UserService.createUser, hfresh, UserRepository.create,
      jsFalsy_some_eq_false hn1, jsFalsy_some_eq_false he1]
  · have hnone2 : UserRepository.findByEmail e2 s = none := by
      rw [findByEmail_eq_none_iff] at hfresh ⊢
      intro v hv
      rw [← hcase]
      exact hfresh v hv
    have hfind : UserRepository.findByEmail e2
        (s ++ [⟨(now1 : Int), n1, e1, now1, now1⟩]) =
        some ⟨(now1 : Int), n1, e1, now1, now1⟩ := by
      rw [UserRepository.findByEmail, List.find?_append]
      have h1 : List.find? (fun u => jsToLower u.email == jsToLower e2) s = none :=
        hnone2
      rw [h1]
      simp [List.find?_cons, hcase]
    simp [UserService.createUser, hfind]

/-- Witness for C4 with case-varied duplicate emails over the seed store. -/
theorem service_create_duplicate_email_conflict_witness :
    ∃ u,
      UserService.createUser "Alice" "alice@example.com" 1736000000000
        UserRepository.initialUsers =
        (Except.ok u, UserRepository.initialUsers ++ [u], 1) ∧
      UserService.createUser "Bob" "ALICE@EXAMPLE.COM" 1736100000000
        (UserRepository.initialUsers ++ [u]) =
        (Except.error "User with this email already exists",
          UserRepository.initialUsers ++ [u], 0) :=
  service_create_duplicate_email_conflict "Alice" "Bob" "alice@example.com"
    "ALICE@EXAMPLE.COM" 1736000000000 1736100000000 UserRepository.initialUsers
    (by decide) (by decide) (by decide) (by decide)

/-! ## HelloService personalization -/

/-- `replaceFirstAux` finds nothing when the pattern does not occur. -/
lemma replaceFirstAux_of_not_hasSub (r : List Char) :
    ∀ (hay pat : List Char), hasSub hay pat = false →
      replaceFirstAux r hay pat = none := by
  intro hay
  induction hay with
  | nil =>
    intro pat h
    rw [hasSub] at h
    simp [replaceFirstAux, h]
  | cons c cs ih =>
    intro pat h
    rw [hasSub, Bool.or_eq_false_iff] at h
    obtain ⟨h1, h2⟩ := h
    simp [replaceFirstAux, h1, ih pat h2]

/-- JS `replace` is the identity when the pattern does not occur. -/
lemma replaceFirst_of_not_contained (s pat r : String)
    (h : hasSub s.data pat.data = false) : replaceFirst s pat r = s := by
  rw [replaceFirst, replaceFirstAux_of_not_hasSub r.data s.data pat.data h]

/-- C10: `getPersonalizedHello` inserts the name only when the base
greeting contains one of the four replacement anchors; in particular for
the languages it, ja, ko and zh the personalized message equals the plain
greeting with the name not inserted. -/
theorem personalized_hello_insertion (name : String) (now : Nat) :
    (∀ language,
      (hasSub (HelloService.baseMessage language).data "World".data ||
       hasSub (HelloService.baseMessage language).data "Mundo".data ||
       hasSub (HelloService.baseMessage language).data "monde".data ||
       hasSub (HelloService.baseMessage language).data "Welt".data) = false →
      (HelloService.getPersonalizedHello name language now).message =
        (HelloService.getHelloMessage language now).message) ∧
    (HelloService.getPersonalizedHello name "it" now).message =
      (HelloService.getHelloMessage "it" now).message ∧
    (HelloService.getPersonalizedHello name "ja" now).message =
      (HelloService.getHelloMessage "ja" now).message ∧
    (HelloService.getPersonalizedHello name "ko" now).message =
      (HelloService.getHelloMessage "ko" now).message ∧
    (HelloService.getPersonalizedHello name "zh" now).message =
      (HelloService.getHelloMessage "zh" now).message := by
  have gen : ∀ language,
      (hasSub (HelloService.baseMessage language).data "World".data ||
       hasSub (HelloService.baseMessage language).data "Mundo".data ||
       hasSub (HelloService.baseMessage language).data "monde".data ||
       hasSub (HelloService.baseMessage language).data "Welt".data) = false →
      (HelloService.getPersonalizedHello name language now).message =
        (HelloService.getHelloMessage language now).message := by
    intro lang h
    rw [Bool.or_eq_false_iff] at h
    obtain ⟨h123, h4⟩ := h
    rw [Bool.or_eq_false_iff] at h123
    obtain ⟨h12, h3⟩ := h123
    rw [Bool.or_eq_false_iff] at h12
    obtain ⟨h1, h2⟩ := h12
    show replaceFirst (replaceFirst (replaceFirst
        (replaceFirst (HelloService.baseMessage lang) "World" name) "Mundo" name)
        "monde" name) "Welt" name = HelloService.baseMessage lang
    rw [replaceFirst_of_not_contained _ _ _ h1,
      replaceFirst_of_not_contained _ _ _ h2,
      replaceFirst_of_not_contained _ _ _ h3,
      replaceFirst_of_not_contained _ _ _ h4]
  exact ⟨gen, gen "it" (by decide), gen "ja" (by decide), gen "ko" (by decide),
    gen "zh" (by decide)⟩

/-- Witness for C10: the Italian greeting keeps the name out. -/
theorem personalized_hello_insertion_witness :
    (HelloService.getPersonalizedHello "Alice" "it" 0).message =
      (HelloService.getHelloMessage "it" 0).message :=
  (personalized_hello_insertion "Alice" 0).1 "it" (by decide)
